import Mathlib

/-!
Shallow embedding of the annotation backend `server_mysql.py`.

The store holds two tables:
* `full_table1` — immutable reference items (identifier `id_$oid`, audio
  path, raw recognized text);
* `output` — per-(item, user) correction rows, primary key
  (`id_$oid`, `username`).

The two core operations are the listing endpoint `api_items`
(eligibility filter, ascending sort on the identifier, offset/limit
pagination, per-user backfill of saved text and confirmed flag) and the
batch save endpoint `api_annotations` (per-entry upsert keyed by
(item, user), skipping entries with a blank identifier).

String primitives (`strip`, `upper`, `lower`, lexicographic comparison,
`basename`) are modelled by structural recursion on the character list
of the string, so that every definition evaluates on concrete input.
-/

namespace AnnTool

/-- Python `str.strip()` / SQL `TRIM`: drop whitespace on both ends. -/
def trimChars (l : List Char) : List Char :=
  ((l.dropWhile Char.isWhitespace).reverse.dropWhile Char.isWhitespace).reverse

/-- Python `str.strip()` on a string. -/
def pyStrip (s : String) : String := ⟨trimChars s.data⟩

/-- SQL `UPPER`. -/
def upperStr (s : String) : String := ⟨s.data.map Char.toUpper⟩

/-- Python `str.lower()`. -/
def lowerStr (s : String) : String := ⟨s.data.map Char.toLower⟩

/-- Lexicographic comparison of character lists by code point, the
order behind `ORDER BY id_$oid ASC`. -/
def lexLe : List Char → List Char → Bool
  | [], _ => true
  | _ :: _, [] => false
  | a :: as, b :: bs =>
    if a.toNat < b.toNat then true
    else if b.toNat < a.toNat then false
    else lexLe as bs

/-- Ascending order on item identifiers. -/
def strLe (a b : String) : Bool := lexLe a.data b.data

/-- `os.path.basename`: the part of the path after the last slash. -/
def basenameStr (p : String) : String :=
  ⟨(p.data.reverse.takeWhile (fun c => c ≠ '/')).reverse⟩

/-- A row of `full_table1`: item identifier, audio path (nullable),
raw recognized text (nullable column `score_audio_input_text`). -/
structure ItemRow where
  oid : String
  stage_audio_path : Option String
  score_audio_input_text : Option String
deriving DecidableEq

/-- A row of the `output` table.  The MySQL schema declares
`PRIMARY KEY (id_$oid, username)`; `confirmed` is stored as 0/1. -/
structure OutputRow where
  oid : String
  username : String
  fix_text : String
  confirmed : Bool
  timestamp : Nat
deriving DecidableEq

/-- The persistent state: the two tables of the database `tool`. -/
structure Store where
  full_table1 : List ItemRow
  output : List OutputRow
deriving DecidableEq

/-- Python `a or b` on an optional string: `None` and `""` are falsy. -/
def pyOr (a : Option String) (b : String) : String :=
  match a with
  | none => b
  | some s => if s = "" then b else s

/-- `keyMatches oid u r` — the row `r` has primary key `(oid, u)`. -/
def keyMatches (oid user : String) (r : OutputRow) : Bool :=
  r.oid == oid && r.username == user

/-- The `LEFT JOIN output o_user ON o_user.id_$oid = f.id_$oid AND
o_user.username = %s` lookup: the (at most one, by the primary key)
row of `output` for the given item and user. -/
def findKey (out : List OutputRow) (oid user : String) : Option OutputRow :=
  out.find? (keyMatches oid user)

/-- The correlated count
`SELECT id_$oid, COUNT(*) AS cnt FROM output GROUP BY id_$oid`
evaluated at one identifier (`COALESCE(cnt, 0)` when no row exists). -/
def outCount (out : List OutputRow) (oid : String) : Nat :=
  (out.filter (fun r => r.oid == oid)).length

/-- The number of distinct users having a saved row for the item —
the cross-user annotation count in the sense of the data model. -/
def distinctUsers (out : List OutputRow) (oid : String) : Nat :=
  ((out.filter (fun r => r.oid == oid)).map (fun r => r.username)).dedup.length

/-- `score_audio_input_text IS NOT NULL AND TRIM(..) <> '' AND
UPPER(..) <> 'NONE'`. -/
def textOk (s? : Option String) : Bool :=
  match s? with
  | none => false
  | some s => pyStrip s != "" && upperStr s != "NONE"

/-- The optional `hideConfirmed` conjunct:
`o_user.confirmed IS NULL OR o_user.confirmed <> 1`. -/
def hideOk (st : Store) (u : String) (hide : Bool) (f : ItemRow) : Bool :=
  !hide ||
    (match findKey st.output f.oid u with
     | none => true
     | some r => !r.confirmed)

/-- The full `WHERE` clause of the listing query for one item row. -/
def eligibleRow (st : Store) (u : String) (hide : Bool) (f : ItemRow) : Bool :=
  textOk f.score_audio_input_text &&
    decide (outCount st.output f.oid < 3) &&
    hideOk st u hide f

/-- Insertion step for `ORDER BY id_$oid ASC`. -/
def insertByOid (r : ItemRow) : List ItemRow → List ItemRow
  | [] => [r]
  | x :: xs => if strLe r.oid x.oid then r :: x :: xs else x :: insertByOid r xs

/-- `ORDER BY id_$oid ASC`: sort the filtered rows ascending by
identifier (insertion sort, a refinement of the SQL ordering). -/
def sortByOid : List ItemRow → List ItemRow
  | [] => []
  | x :: xs => insertByOid x (sortByOid xs)

/-- `limit = max(1, min(limit, 1000))`. -/
def clampLimit (l : Int) : Nat := (max 1 (min l 1000)).toNat

/-- `offset = max(0, offset)`. -/
def clampOffset (o : Int) : Nat := (max 0 o).toNat

/-- `hideConfirmed` query-string parsing:
`value.lower() in ("1", "true", "yes")`. -/
def parseHideConfirmed (s : String) : Bool :=
  let t := lowerStr s
  t == "1" || t == "true" || t == "yes"

/-- The fixed asset host prefixed to the stored relative path. -/
def assetHost : String := "https://content-pic3.oss-cn-hangzhou.aliyuncs.com"

/-- One element of the JSON array returned by the listing endpoint. -/
structure EnrichedItem where
  id : String
  name : String
  audioUrl : String
  stageAudioPath : String
  inputText : String
  fixText : String
  confirmed : Bool
deriving DecidableEq

/-- The per-row enrichment of the listing loop (`for i, r in
enumerate(rows)`): resolve name and audio URL from the path, backfill
`fixText`/`confirmed` from the user's saved row when present
(a saved empty `fix_text` falls back to the raw text). -/
def enrich (st : Store) (u : String) (i : Nat) (r : ItemRow) : EnrichedItem :=
  let stagePath := r.stage_audio_path.getD ""
  let url := if stagePath != "" then assetHost ++ stagePath else ""
  let nm := if stagePath != "" then basenameStr stagePath else "音频#" ++ toString (i + 1)
  let inputText := r.score_audio_input_text.getD ""
  let userRow := findKey st.output r.oid u
  let fix := match userRow with
    | some row => if row.fix_text != "" then row.fix_text else inputText
    | none => inputText
  let conf := match userRow with
    | some row => row.confirmed
    | none => false
  { id := r.oid, name := nm, audioUrl := url, stageAudioPath := stagePath,
    inputText := inputText, fixText := fix, confirmed := conf }

/-- The filtered rows in the order the query returns them
(before `LIMIT`/`OFFSET`). -/
def eligibleSorted (st : Store) (u : String) (hide : Bool) : List ItemRow :=
  sortByOid (st.full_table1.filter (eligibleRow st u hide))

/-- The enrichment loop over the fetched page, with the positional
index used for placeholder names. -/
def enrichAll (st : Store) (u : String) : Nat → List ItemRow → List EnrichedItem
  | _, [] => []
  | i, r :: rs => enrich st u i r :: enrichAll st u (i + 1) rs

/-- `GET /api/items`: clamp the paging arguments, trim the username,
run the filtered/sorted/paged query and enrich each returned row. -/
def api_items (st : Store) (username : String) (limit offset : Int)
    (hideConfirmed : Bool) : List EnrichedItem :=
  enrichAll st (pyStrip username) 0
    (((eligibleSorted st (pyStrip username) hideConfirmed).drop
        (clampOffset offset)).take (clampLimit limit))

/-- The listing route including its `try/except` wrapper: a query
failure is answered with the empty JSON array, and the read path never
modifies the store. -/
def api_itemsRoute (st : Store) (username : String) (limit offset : Int)
    (hideConfirmed : Bool) (queryFails : Bool) : List EnrichedItem × Store :=
  if queryFails then ([], st)
  else (api_items st username limit offset hideConfirmed, st)

/-- One element of the posted `items` batch; every field of the JSON
object is optional. -/
structure AnnEntry where
  id : Option String
  idOid : Option String
  fixText : Option String
  fix_text : Option String
  username : Option String
  confirmed : Option Bool
deriving DecidableEq

/-- `str(it.get("id") or it.get("id_$oid") or "").strip()`. -/
def resolveOid (e : AnnEntry) : String := pyStrip (pyOr e.id (pyOr e.idOid ""))

/-- `it.get("fixText") or it.get("fix_text") or ""`. -/
def resolveFix (e : AnnEntry) : String := pyOr e.fixText (pyOr e.fix_text "")

/-- `(it.get("username") or top_username or "").strip()`, with the
envelope username already stripped. -/
def resolveUser (e : AnnEntry) (top : String) : String := pyStrip (pyOr e.username top)

/-- `1 if bool(it.get("confirmed")) else 0`. -/
def resolveConfirmed (e : AnnEntry) : Bool := e.confirmed.getD false

/-- `INSERT INTO output .. VALUES (.., NOW()) ON DUPLICATE KEY UPDATE
fix_text = VALUES(fix_text), confirmed = VALUES(confirmed),
timestamp = NOW()`: replace the row with primary key `(oid, user)`
when one exists, append a fresh row otherwise. -/
def upsert (out : List OutputRow) (oid user fix : String) (conf : Bool)
    (t : Nat) : List OutputRow :=
  if out.any (keyMatches oid user) then
    out.map (fun r =>
      if keyMatches oid user r then
        { r with fix_text := fix, confirmed := conf, timestamp := t }
      else r)
  else
    out ++ [⟨oid, user, fix, conf, t⟩]

/-- The write loop of the save endpoint: skip entries with a blank
resolved identifier, upsert the rest, and count the executed writes. -/
def processBatch (top : String) (t : Nat) :
    List AnnEntry → List OutputRow → List OutputRow × Nat
  | [], out => (out, 0)
  | e :: es, out =>
    if resolveOid e = "" then processBatch top t es out
    else
      let r := processBatch top t es
        (upsert out (resolveOid e) (resolveUser e top) (resolveFix e)
          (resolveConfirmed e) t)
      (r.1, r.2 + 1)

/-- `POST /api/annotations` on a well-formed payload: resolve the
envelope username, run the write loop, and answer the saved count. -/
def api_annotations (st : Store) (topUsername : Option String)
    (entries : List AnnEntry) (t : Nat) : Store × Nat :=
  let top := pyStrip (pyOr topUsername "")
  let r := processBatch top t entries st.output
  ({ st with output := r.1 }, r.2)

/-- The write loop when the store connection fails upon reaching entry
index `k`: every write executed before that point was already committed
(the connection runs with `autocommit=True`), the rest of the batch is
never executed. -/
def processBatchFailing (top : String) (t : Nat) :
    List AnnEntry → Nat → List OutputRow → List OutputRow
  | _, 0, out => out
  | [], _ + 1, out => out
  | e :: es, k + 1, out =>
    if resolveOid e = "" then processBatchFailing top t es k out
    else
      processBatchFailing top t es k
        (upsert out (resolveOid e) (resolveUser e top) (resolveFix e)
          (resolveConfirmed e) t)

/-- `POST /api/annotations` when the store fails at entry index `k`:
the surrounding `try/except` answers a 500 error instead of a count,
and the store keeps exactly the writes committed before the failure. -/
def api_annotations_failing (st : Store) (topUsername : Option String)
    (entries : List AnnEntry) (t k : Nat) : Store × Except String Nat :=
  ({ st with
      output := processBatchFailing (pyStrip (pyOr topUsername "")) t entries k st.output },
    Except.error "server error")

/-- The primary key of a row of `output`. -/
def keysOf (out : List OutputRow) : List (String × String) :=
  out.map (fun r => (r.oid, r.username))

/-- The schema invariant enforced by `PRIMARY KEY (id_$oid, username)`:
no two rows share a key. -/
def validKeys (out : List OutputRow) : Prop := (keysOf out).Nodup

instance (out : List OutputRow) : Decidable (validKeys out) := by
  unfold validKeys; infer_instance

/-- The number of rows with primary key `(oid, u)`. -/
def countKey (out : List OutputRow) (oid u : String) : Nat :=
  (out.filter (keyMatches oid u)).length

/-- A row's content apart from the auto-updated timestamp column. -/
def eraseTs (out : List OutputRow) : List (String × String × String × Bool) :=
  out.map (fun r => (r.oid, r.username, r.fix_text, r.confirmed))

/-! ### Order lemmas for the identifier comparison -/

lemma lexLe_total : ∀ a b : List Char, lexLe a b = true ∨ lexLe b a = true
  | [], _ => Or.inl rfl
  | _ :: _, [] => Or.inr rfl
  | a :: as, b :: bs => by
    by_cases h1 : a.toNat < b.toNat
    · exact Or.inl (by simp [lexLe, h1])
    · by_cases h2 : b.toNat < a.toNat
      · exact Or.inr (by simp [lexLe, h2])
      · rcases lexLe_total as bs with h | h
        · exact Or.inl (by simp [lexLe, h1, h2, h])
        · exact Or.inr (by simp [lexLe, h1, h2, h])

lemma lexLe_trans : ∀ a b c : List Char,
    lexLe a b = true → lexLe b c = true → lexLe a c = true
  | [], _, _, _, _ => rfl
  | _ :: _, [], _, hab, _ => by simp [lexLe] at hab
  | _ :: _, _ :: _, [], _, hbc => by simp [lexLe] at hbc
  | a :: as, b :: bs, c :: cs, hab, hbc => by
    simp only [lexLe] at hab hbc ⊢
    by_cases h1 : a.toNat < b.toNat
    · by_cases h2 : b.toNat < c.toNat
      · simp [Nat.lt_trans h1 h2]
      · by_cases h2' : c.toNat < b.toNat
        · simp [h2, h2'] at hbc
        · have h3 : a.toNat < c.toNat := by omega
          simp [h3]
    · by_cases h1' : b.toNat < a.toNat
      · simp [h1, h1'] at hab
      · have hab' : lexLe as bs = true := by simpa [h1, h1'] using hab
        by_cases h2 : b.toNat < c.toNat
        · have h3 : a.toNat < c.toNat := by omega
          simp [h3]
        · by_cases h2' : c.toNat < b.toNat
          · simp [h2, h2'] at hbc
          · have hbc' : lexLe bs cs = true := by simpa [h2, h2'] using hbc
            have h3 : ¬ a.toNat < c.toNat := by omega
            have h3' : ¬ c.toNat < a.toNat := by omega
            simp [h3, h3', lexLe_trans as bs cs hab' hbc']

lemma strLe_total (a b : String) : strLe a b = true ∨ strLe b a = true :=
  lexLe_total a.data b.data

lemma strLe_trans {a b c : String} (h1 : strLe a b = true) (h2 : strLe b c = true) :
    strLe a c = true :=
  lexLe_trans a.data b.data c.data h1 h2

/-! ### Lemmas on the listing pipeline -/

lemma mem_insertByOid {a r : ItemRow} : ∀ {l : List ItemRow},
    a ∈ insertByOid r l ↔ a = r ∨ a ∈ l := by
  intro l
  induction l with
  | nil => simp [insertByOid]
  | cons x xs ih =>
    cases h : strLe r.oid x.oid
    · simp only [insertByOid, h, Bool.false_eq_true, if_false, List.mem_cons, ih]
      try tauto
    · simp only [insertByOid, h, if_true, List.mem_cons, ih]
      try tauto

lemma mem_sortByOid {a : ItemRow} : ∀ {l : List ItemRow}, a ∈ sortByOid l ↔ a ∈ l := by
  intro l
  induction l with
  | nil => simp [sortByOid]
  | cons x xs ih => simp [sortByOid, mem_insertByOid, ih]

lemma pairwise_insertByOid {r : ItemRow} : ∀ {l : List ItemRow},
    l.Pairwise (fun x y => strLe x.oid y.oid = true) →
    (insertByOid r l).Pairwise (fun x y => strLe x.oid y.oid = true) := by
  intro l
  induction l with
  | nil => simp [insertByOid]
  | cons x xs ih =>
    intro h
    rw [List.pairwise_cons] at h
    obtain ⟨hx, hxs⟩ := h
    cases hle : strLe r.oid x.oid with
    | true =>
      simp only [insertByOid]
      rw [if_pos hle, List.pairwise_cons]
      refine ⟨?_, List.pairwise_cons.mpr ⟨hx, hxs⟩⟩
      intro y hy
      rcases List.mem_cons.mp hy with rfl | hy
      · exact hle
      · exact strLe_trans hle (hx y hy)
    | false =>
      simp only [insertByOid]
      rw [if_neg (by simp [hle]), List.pairwise_cons]
      constructor
      · intro y hy
        rcases mem_insertByOid.mp hy with hyr | hy
        · rw [hyr]
          rcases strLe_total r.oid x.oid with h | h
          · rw [h] at hle; cases hle
          · exact h
        · exact hx y hy
      · exact ih hxs

lemma pairwise_sortByOid : ∀ l : List ItemRow,
    (sortByOid l).Pairwise (fun x y => strLe x.oid y.oid = true)
  | [] => by simp [sortByOid]
  | x :: xs => by
    simp only [sortByOid]
    exact pairwise_insertByOid (pairwise_sortByOid xs)

lemma enrich_id (st : Store) (u : String) (i : Nat) (r : ItemRow) :
    (enrich st u i r).id = r.oid := rfl

lemma enrich_inputText (st : Store) (u : String) (i : Nat) (r : ItemRow) :
    (enrich st u i r).inputText = r.score_audio_input_text.getD "" := rfl

lemma enrich_confirmed (st : Store) (u : String) (i : Nat) (r : ItemRow) :
    (enrich st u i r).confirmed
      = ((findKey st.output r.oid u).map OutputRow.confirmed).getD false := by
  cases h : findKey st.output r.oid u <;> simp [enrich, h]

lemma enrich_fixText (st : Store) (u : String) (i : Nat) (r : ItemRow) :
    (enrich st u i r).fixText
      = (match findKey st.output r.oid u with
         | none => r.score_audio_input_text.getD ""
         | some row =>
             if row.fix_text = "" then r.score_audio_input_text.getD ""
             else row.fix_text) := by
  cases h : findKey st.output r.oid u with
  | none => simp [enrich, h]
  | some row =>
    by_cases hf : row.fix_text = "" <;> simp [enrich, h, hf]

lemma enrichAll_map_id (st : Store) (u : String) : ∀ (i : Nat) (rs : List ItemRow),
    (enrichAll st u i rs).map (fun it => it.id) = rs.map (fun r => r.oid)
  | _, [] => rfl
  | i, r :: rs => by
    simp [enrichAll, enrich_id, enrichAll_map_id st u (i + 1) rs]

lemma mem_enrichAll {st : Store} {u : String} {it : EnrichedItem} :
    ∀ {i : Nat} {rs : List ItemRow}, it ∈ enrichAll st u i rs →
      ∃ j r, r ∈ rs ∧ it = enrich st u j r := by
  intro i rs
  induction rs generalizing i with
  | nil => intro h; cases h
  | cons r rs ih =>
    intro h
    simp only [enrichAll] at h
    rcases List.mem_cons.mp h with he | h
    · exact ⟨i, r, List.mem_cons_self r rs, he⟩
    · obtain ⟨j, r', hr', he⟩ := ih h
      exact ⟨j, r', List.mem_cons_of_mem r hr', he⟩

lemma mem_api_items {st : Store} {u0 : String} {l o : Int} {hide : Bool}
    {it : EnrichedItem} (h : it ∈ api_items st u0 l o hide) :
    ∃ j r, r ∈ st.full_table1 ∧ eligibleRow st (pyStrip u0) hide r = true ∧
      it = enrich st (pyStrip u0) j r := by
  unfold api_items at h
  obtain ⟨j, r, hr, he⟩ := mem_enrichAll h
  have hr1 : r ∈ eligibleSorted st (pyStrip u0) hide :=
    List.mem_of_mem_drop (List.mem_of_mem_take hr)
  have hr2 : r ∈ st.full_table1.filter (eligibleRow st (pyStrip u0) hide) :=
    mem_sortByOid.mp hr1
  obtain ⟨hmem, helig⟩ := List.mem_filter.mp hr2
  exact ⟨j, r, hmem, helig, he⟩

lemma eligibleRow_count {st : Store} {u : String} {hide : Bool} {r : ItemRow}
    (h : eligibleRow st u hide r = true) : outCount st.output r.oid < 3 := by
  simp only [eligibleRow, Bool.and_eq_true, decide_eq_true_eq] at h
  exact h.1.2

lemma distinctUsers_le_outCount (out : List OutputRow) (oid : String) :
    distinctUsers out oid ≤ outCount out oid := by
  unfold distinctUsers outCount
  calc ((out.filter (fun r => r.oid == oid)).map (fun r => r.username)).dedup.length
      ≤ ((out.filter (fun r => r.oid == oid)).map (fun r => r.username)).length :=
        (List.dedup_sublist _).length_le
    _ = (out.filter (fun r => r.oid == oid)).length := List.length_map _ _

/-! ### Claim theorems about the listing endpoint -/

/-- C1.  For every requesting user (the anonymous empty user included)
and every item whose cross-user annotation count is at least 3, the
listing never returns that item, on any page. -/
theorem quota_excludes_item (st : Store) (u : String) (l o : Int) (hide : Bool)
    (oid : String) (h : 3 ≤ distinctUsers st.output oid) :
    oid ∉ (api_items st u l o hide).map (fun it => it.id) := by
  intro hmem
  obtain ⟨it, hit, hid⟩ := List.mem_map.mp hmem
  obtain ⟨j, r, _, helig, he⟩ := mem_api_items hit
  have hidr : it.id = r.oid := by rw [he]; rfl
  have hcnt : outCount st.output r.oid < 3 := eligibleRow_count helig
  have hle : distinctUsers st.output r.oid ≤ outCount st.output r.oid :=
    distinctUsers_le_outCount st.output r.oid
  rw [← hidr, hid] at hcnt hle
  omega

def W1 : Store :=
  ⟨[⟨"7", none, some "hello"⟩],
   [⟨"7", "alice", "a", false, 0⟩, ⟨"7", "bob", "b", false, 0⟩,
    ⟨"7", "carol", "c", false, 0⟩]⟩

theorem quota_excludes_item_witness :
    3 ≤ distinctUsers W1.output "7" ∧
    "7" ∉ (api_items W1 "" 30 0 false).map (fun it => it.id) :=
  ⟨by decide, quota_excludes_item W1 "" 30 0 false "7" (by decide)⟩

/-- C2 (amended).  Whenever the listing for user U returns an item for
which U has a saved row, the confirmed flag comes from that row and the
display text comes from that row when its saved text is non-empty (the
raw recognized text is shown when the saved text is empty). -/
theorem backfill_of_listed (st : Store) (u0 : String) (l o : Int) (hide : Bool)
    (it : EnrichedItem) (row : OutputRow)
    (h1 : it ∈ api_items st u0 l o hide)
    (h2 : findKey st.output it.id (pyStrip u0) = some row) :
    it.confirmed = row.confirmed ∧
    it.fixText = (if row.fix_text = "" then it.inputText else row.fix_text) := by
  obtain ⟨j, r, _, _, he⟩ := mem_api_items h1
  have hidr : it.id = r.oid := by rw [he]; rfl
  rw [hidr] at h2
  subst he
  refine ⟨?_, ?_⟩
  · rw [enrich_confirmed, h2]; rfl
  · rw [enrich_fixText, h2, enrich_inputText]

def W2 : Store := ⟨[⟨"7", none, some "hello"⟩], [⟨"7", "alice", "Hi", true, 0⟩]⟩

def itW2 : EnrichedItem := ⟨"7", "音频#1", "", "", "hello", "Hi", true⟩

def rowW2 : OutputRow := ⟨"7", "alice", "Hi", true, 0⟩

theorem backfill_of_listed_witness :
    itW2.confirmed = rowW2.confirmed ∧
    itW2.fixText = (if rowW2.fix_text = "" then itW2.inputText else rowW2.fix_text) :=
  backfill_of_listed W2 "alice" 30 0 false itW2 rowW2 (by decide) (by decide)

def W2a : Store :=
  ⟨[⟨"7", none, some "hello"⟩],
   [⟨"7", "alice", "Hi", true, 0⟩, ⟨"7", "bob", "x", false, 0⟩,
    ⟨"7", "carol", "y", false, 0⟩]⟩

def W2b : Store := ⟨[⟨"7", none, some "hello"⟩], [⟨"7", "alice", "", true, 0⟩]⟩

/-- C2 (counterexample to the claim as stated).  `alice` has a saved
row for item "7", yet (a) when three users annotated the item, the
listing for `alice` returns nothing at all, and (b) when her saved text
is the empty string, the listed display text is the raw recognized
text, not the saved value. -/
theorem backfill_claim_counterexample :
    findKey W2a.output "7" "alice" = some ⟨"7", "alice", "Hi", true, 0⟩ ∧
    api_items W2a "alice" 30 0 false = [] ∧
    findKey W2b.output "7" "alice" = some ⟨"7", "alice", "", true, 0⟩ ∧
    (api_items W2b "alice" 30 0 false).map (fun it => it.fixText) = ["hello"] ∧
    ("hello" : String) ≠ "" := by decide

lemma clampLimit_eq {l : Int} (h1 : 1 ≤ l) (h2 : l ≤ 1000) :
    clampLimit l = l.toNat := by
  unfold clampLimit
  rw [min_eq_left h2, max_eq_right h1]

lemma clampOffset_eq {o : Int} (h : 0 ≤ o) : clampOffset o = o.toNat := by
  unfold clampOffset
  rw [max_eq_right h]

/-- C6.  The listing is ordered ascending by item identifier, and for a
fixed store and fixed filters two calls with the same (unclamped-range)
limit and consecutive offsets return exactly the contiguous slice of
the eligible ordered sequence: no gaps, no duplicates. -/
theorem pagination_partition (st : Store) (u : String) (hide : Bool) (l o : Int)
    (h1 : 1 ≤ l) (h2 : l ≤ 1000) (h3 : 0 ≤ o) :
    ((api_items st u l o hide).map (fun it => it.id)).Pairwise
      (fun a b => strLe a b = true) ∧
    (api_items st u l o hide).map (fun it => it.id) ++
      (api_items st u l (o + l) hide).map (fun it => it.id) =
      (((eligibleSorted st (pyStrip u) hide).map (fun r => r.oid)).drop o.toNat).take
        (l.toNat + l.toNat) := by
  have hl0 : (0 : Int) ≤ l := le_trans zero_le_one h1
  have hol : (0 : Int) ≤ o + l := by omega
  have e1 : clampLimit l = l.toNat := clampLimit_eq h1 h2
  have e2 : clampOffset o = o.toNat := clampOffset_eq h3
  have e3 : clampOffset (o + l) = o.toNat + l.toNat := by
    rw [clampOffset_eq hol, Int.toNat_add h3 hl0]
  constructor
  · rw [api_items, enrichAll_map_id]
    refine List.pairwise_map.mpr ?_
    refine List.Pairwise.sublist ?_
      (pairwise_sortByOid (st.full_table1.filter (eligibleRow st (pyStrip u) hide)))
    exact (List.take_sublist _ _).trans (List.drop_sublist _ _)
  · rw [api_items, api_items, enrichAll_map_id, enrichAll_map_id, e1, e2, e3,
      ← List.map_drop, ← List.map_take, List.take_add, List.map_append,
      List.drop_drop]

def W6 : Store :=
  ⟨[⟨"b", none, some "t2"⟩, ⟨"a", none, some "t1"⟩, ⟨"c", none, some "t3"⟩], []⟩

theorem pagination_partition_witness :
    ((api_items W6 "" 1 0 false).map (fun it => it.id)).Pairwise
      (fun a b => strLe a b = true) ∧
    (api_items W6 "" 1 0 false).map (fun it => it.id) ++
      (api_items W6 "" 1 (0 + 1) false).map (fun it => it.id) =
      (((eligibleSorted W6 (pyStrip "") false).map (fun r => r.oid)).drop
          (Int.toNat 0)).take (Int.toNat 1 + Int.toNat 1) :=
  pagination_partition W6 "" false 1 0 (by decide) (by decide) (by decide)

/-- C7.  When the store query fails, the listing route answers the
empty sequence (no propagated error) and leaves the store untouched. -/
theorem listing_failure_returns_empty (st : Store) (u : String) (l o : Int)
    (hide : Bool) :
    api_itemsRoute st u l o hide true = ([], st) := rfl

/-- C9 (amended).  For the anonymous empty requesting user, backfill is
applied from rows saved under the empty username, exactly as for any
named user: a listed item shows the raw text and an unconfirmed flag
precisely when no empty-username row exists for it. -/
theorem anonymous_backfill (st : Store) (l o : Int) (hide : Bool)
    (it : EnrichedItem) (h : it ∈ api_items st "" l o hide) :
    it.confirmed = ((findKey st.output it.id "").map OutputRow.confirmed).getD false ∧
    it.fixText = (match findKey st.output it.id "" with
      | none => it.inputText
      | some row => if row.fix_text = "" then it.inputText else row.fix_text) := by
  obtain ⟨j, r, _, _, he⟩ := mem_api_items h
  have hidr : it.id = r.oid := by rw [he]; rfl
  rw [hidr]
  subst he
  constructor
  · rw [enrich_confirmed]
    rfl
  · rw [enrich_fixText, enrich_inputText]
    rfl

def W9 : Store := ⟨[⟨"1", none, some "hello"⟩], []⟩

def itW9 : EnrichedItem := ⟨"1", "音频#1", "", "", "hello", "hello", false⟩

theorem anonymous_backfill_witness :
    itW9.confirmed = ((findKey W9.output itW9.id "").map OutputRow.confirmed).getD false ∧
    itW9.fixText = (match findKey W9.output itW9.id "" with
      | none => itW9.inputText
      | some row => if row.fix_text = "" then itW9.inputText else row.fix_text) :=
  anonymous_backfill W9 30 0 false itW9 (by decide)

def W9c : Store := ⟨[⟨"1", none, some "hello"⟩], [⟨"1", "", "x", true, 3⟩]⟩

/-- C9 (counterexample to the claim as stated).  With a row saved under
the empty username, the anonymous listing backfills from it: the
displayed text is the saved "x", not the raw "hello", and the
confirmed flag is true, not false. -/
theorem anonymous_no_backfill_counterexample :
    (api_items W9c "" 30 0 false).map (fun it => (it.inputText, it.fixText, it.confirmed)) =
      [("hello", "x", true)] ∧
    ("x" : String) ≠ "hello" := by decide

/-! ### Lemmas on the save pipeline -/

lemma keyMatches_iff {oid u : String} {r : OutputRow} :
    keyMatches oid u r = true ↔ r.oid = oid ∧ r.username = u := by
  simp [keyMatches]

lemma keysOf_map_upd (out : List OutputRow) (oid u f : String) (c : Bool) (t : Nat) :
    keysOf (out.map (fun r => if keyMatches oid u r then
      { r with fix_text := f, confirmed := c, timestamp := t } else r)) = keysOf out := by
  unfold keysOf
  rw [List.map_map]
  refine List.map_congr_left ?_
  intro r _
  by_cases h : keyMatches oid u r = true <;> simp [h]

lemma any_key_iff {out : List OutputRow} {oid u : String} :
    out.any (keyMatches oid u) = true ↔ (oid, u) ∈ keysOf out := by
  simp only [List.any_eq_true, keysOf, List.mem_map]
  constructor
  · rintro ⟨r, hr, hm⟩
    obtain ⟨h1, h2⟩ := keyMatches_iff.mp hm
    exact ⟨r, hr, by rw [h1, h2]⟩
  · rintro ⟨r, hr, hk⟩
    exact ⟨r, hr, keyMatches_iff.mpr ⟨congrArg Prod.fst hk, congrArg Prod.snd hk⟩⟩

lemma keysOf_upsert (out : List OutputRow) (oid u f : String) (c : Bool) (t : Nat) :
    keysOf (upsert out oid u f c t)
      = if (oid, u) ∈ keysOf out then keysOf out else keysOf out ++ [(oid, u)] := by
  unfold upsert
  by_cases h : out.any (keyMatches oid u) = true
  · rw [if_pos h, if_pos (any_key_iff.mp h), keysOf_map_upd]
  · rw [if_neg h, if_neg (fun hm => h (any_key_iff.mpr hm))]
    unfold keysOf
    rw [List.map_append]
    rfl

lemma validKeys_upsert {out : List OutputRow} (h : validKeys out)
    (oid u f : String) (c : Bool) (t : Nat) : validKeys (upsert out oid u f c t) := by
  unfold validKeys
  rw [keysOf_upsert]
  by_cases hm : (oid, u) ∈ keysOf out
  · rw [if_pos hm]
    exact h
  · rw [if_neg hm]
    simp only [List.nodup_append, List.nodup_cons, List.not_mem_nil, not_false_iff,
      List.nodup_nil, and_true, true_and, List.disjoint_singleton]
    exact ⟨h, hm⟩

lemma processBatch_validKeys (top : String) (t : Nat) :
    ∀ (es : List AnnEntry) (out : List OutputRow), validKeys out →
      validKeys (processBatch top t es out).1
  | [], _, h => h
  | e :: es, out, h => by
    by_cases he : resolveOid e = ""
    · simpa [processBatch, he] using processBatch_validKeys top t es out h
    · simpa [processBatch, he] using
        processBatch_validKeys top t es _ (validKeys_upsert h (resolveOid e)
          (resolveUser e top) (resolveFix e) (resolveConfirmed e) t)

/-- C3.  The per-entry write of the save operation is a replace-on-
conflict keyed by (item, user) — it never appends a second row for an
existing key — and consequently every save preserves the invariant
that the store holds at most one row per (item, user) pair. -/
theorem output_key_uniqueness :
    (∀ (out : List OutputRow) (oid u f : String) (c : Bool) (t : Nat),
      keysOf (upsert out oid u f c t)
        = if (oid, u) ∈ keysOf out then keysOf out else keysOf out ++ [(oid, u)]) ∧
    (∀ (st : Store) (top : Option String) (es : List AnnEntry) (t : Nat),
      validKeys st.output → validKeys (api_annotations st top es t).fst.output) := by
  refine ⟨keysOf_upsert, ?_⟩
  intro st top es t h
  exact processBatch_validKeys (pyStrip (pyOr top "")) t es st.output h

def W3 : Store := ⟨[], [⟨"9", "alice", "old", false, 0⟩]⟩

def eW3 : AnnEntry := ⟨some "9", none, some "new", none, some "alice", some true⟩

theorem output_key_uniqueness_witness :
    validKeys W3.output ∧ validKeys (api_annotations W3 none [eW3] 5).fst.output :=
  ⟨by decide, output_key_uniqueness.2 W3 none [eW3] 5 (by decide)⟩

lemma api_annotations_single (st : Store) (top : Option String) (e : AnnEntry)
    (t : Nat) (h : resolveOid e ≠ "") :
    api_annotations st top [e] t =
      ({ st with
          output :=
            upsert st.output (resolveOid e) (resolveUser e (pyStrip (pyOr top "")))
              (resolveFix e) (resolveConfirmed e) t }, 1) := by
  simp [api_annotations, processBatch, h]

lemma mem_upsert_content {out : List OutputRow} {oid u f : String} {c : Bool}
    {t : Nat} {r : OutputRow} (hr : r ∈ upsert out oid u f c t)
    (hm : keyMatches oid u r = true) : r.fix_text = f ∧ r.confirmed = c := by
  unfold upsert at hr
  by_cases hany : out.any (keyMatches oid u) = true
  · rw [if_pos hany] at hr
    obtain ⟨r0, hr0, he⟩ := List.mem_map.mp hr
    by_cases hm0 : keyMatches oid u r0 = true
    · rw [if_pos hm0] at he
      rw [← he]
      exact ⟨rfl, rfl⟩
    · rw [if_neg hm0] at he
      rw [← he] at hm
      exact absurd hm hm0
  · rw [if_neg hany] at hr
    rcases List.mem_append.mp hr with hr | hr
    · exact absurd (List.any_eq_true.mpr ⟨r, hr, hm⟩) hany
    · rw [List.mem_singleton.mp hr]
      exact ⟨rfl, rfl⟩

lemma upsert_any (out : List OutputRow) (oid u f : String) (c : Bool) (t : Nat) :
    (upsert out oid u f c t).any (keyMatches oid u) = true := by
  unfold upsert
  by_cases hany : out.any (keyMatches oid u) = true
  · rw [if_pos hany]
    obtain ⟨r0, hr0, hm0⟩ := List.any_eq_true.mp hany
    refine List.any_eq_true.mpr ⟨_, List.mem_map.mpr ⟨r0, hr0, rfl⟩, ?_⟩
    rw [if_pos hm0]
    obtain ⟨h1, h2⟩ := keyMatches_iff.mp hm0
    exact keyMatches_iff.mpr ⟨h1, h2⟩
  · rw [if_neg hany]
    refine List.any_eq_true.mpr ⟨⟨oid, u, f, c, t⟩, ?_, ?_⟩
    · exact List.mem_append_right _ (by simp)
    · simp [keyMatches]

lemma eraseTs_upsert_stable {out : List OutputRow} {oid u f : String} {c : Bool}
    {t : Nat}
    (hall : ∀ r ∈ out, keyMatches oid u r = true → r.fix_text = f ∧ r.confirmed = c)
    (hany : out.any (keyMatches oid u) = true) :
    eraseTs (upsert out oid u f c t) = eraseTs out := by
  unfold upsert
  rw [if_pos hany]
  unfold eraseTs
  rw [List.map_map]
  refine List.map_congr_left ?_
  intro r hr
  by_cases hm : keyMatches oid u r = true
  · obtain ⟨h1, h2⟩ := hall r hr hm
    simp [hm, h1, h2]
  · simp [hm]

lemma validKeys_tail {r : OutputRow} {rs : List OutputRow}
    (h : validKeys (r :: rs)) :
    (r.oid, r.username) ∉ keysOf rs ∧ validKeys rs := by
  unfold validKeys keysOf at h ⊢
  rw [List.map_cons, List.nodup_cons] at h
  exact h

lemma countKey_valid {out : List OutputRow} (h : validKeys out) (oid u : String) :
    countKey out oid u = if (oid, u) ∈ keysOf out then 1 else 0 := by
  induction out with
  | nil => simp [countKey, keysOf]
  | cons r rs ih =>
    obtain ⟨hnot, h'⟩ := validKeys_tail h
    have hcons : keysOf (r :: rs) = (r.oid, r.username) :: keysOf rs := rfl
    by_cases hm : keyMatches oid u r = true
    · obtain ⟨h1, h2⟩ := keyMatches_iff.mp hm
      have hmemk : (oid, u) ∈ keysOf (r :: rs) := by
        rw [hcons, ← h1, ← h2]
        exact List.mem_cons_self _ _
      have hzero : countKey rs oid u = 0 := by
        rw [ih h']
        rw [if_neg (by rw [← h1, ← h2]; exact hnot)]
      rw [if_pos hmemk]
      unfold countKey at hzero ⊢
      rw [List.filter_cons, if_pos hm, List.length_cons, hzero]
    · have hne : (oid, u) ∈ keysOf (r :: rs) ↔ (oid, u) ∈ keysOf rs := by
        rw [hcons, List.mem_cons]
        constructor
        · rintro (hk | hk)
          · exact absurd (keyMatches_iff.mpr
              ⟨(congrArg Prod.fst hk).symm, (congrArg Prod.snd hk).symm⟩) hm
          · exact hk
        · exact fun hk => Or.inr hk
      have hstep : countKey (r :: rs) oid u = countKey rs oid u := by
        unfold countKey
        rw [List.filter_cons, if_neg hm]
      rw [hstep, ih h']
      by_cases hk : (oid, u) ∈ keysOf rs
      · rw [if_pos hk, if_pos (hne.mpr hk)]
      · rw [if_neg hk, if_neg (fun hkk => hk (hne.mp hkk))]

lemma countKey_upsert {out : List OutputRow} (h : validKeys out)
    (oid u f : String) (c : Bool) (t : Nat) :
    countKey (upsert out oid u f c t) oid u = 1 := by
  have hv : validKeys (upsert out oid u f c t) := validKeys_upsert h oid u f c t
  rw [countKey_valid hv, if_pos]
  rw [keysOf_upsert]
  by_cases hm : (oid, u) ∈ keysOf out
  · rw [if_pos hm]
    exact hm
  · rw [if_neg hm]
    exact List.mem_append_right _ (by simp)

def eIdem : AnnEntry := ⟨some "42", none, some "Hello.", none, some "alice", some true⟩

/-- C4 (counterexample to the claim as stated).  Saving the same entry
twice at two write times leaves a different stored state after the
second call: the row's auto-updated timestamp column changes. -/
theorem save_idempotence_counterexample :
    (api_annotations (api_annotations ⟨[], []⟩ none [eIdem] 0).fst none [eIdem] 1).fst ≠
      (api_annotations ⟨[], []⟩ none [eIdem] 0).fst := by decide

/-- C4 (amended).  Saving the same (item, user, text, confirmed) entry
twice leaves exactly one row for that key, the second call reports a
written count of 1, and the stored state is unchanged from after the
first call apart from the row's auto-updated timestamp. -/
theorem save_idempotent_content (st : Store) (top : Option String) (e : AnnEntry)
    (t1 t2 : Nat) (hoid : resolveOid e ≠ "") (hv : validKeys st.output) :
    (api_annotations (api_annotations st top [e] t1).fst top [e] t2).snd = 1 ∧
    countKey (api_annotations (api_annotations st top [e] t1).fst top [e] t2).fst.output
      (resolveOid e) (resolveUser e (pyStrip (pyOr top ""))) = 1 ∧
    eraseTs (api_annotations (api_annotations st top [e] t1).fst top [e] t2).fst.output
      = eraseTs (api_annotations st top [e] t1).fst.output := by
  have hA := api_annotations_single st top e t1 hoid
  have hv1 : validKeys (api_annotations st top [e] t1).fst.output := by
    rw [hA]
    exact validKeys_upsert hv _ _ _ _ _
  have hB := api_annotations_single (api_annotations st top [e] t1).fst top e t2 hoid
  refine ⟨by rw [hB], ?_, ?_⟩
  · rw [hB]
    exact countKey_upsert hv1 _ _ _ _ _
  · rw [hB]
    refine eraseTs_upsert_stable ?_ ?_
    · intro r hr hm
      rw [hA] at hr
      exact mem_upsert_content hr hm
    · rw [hA]
      exact upsert_any _ _ _ _ _ _

theorem save_idempotent_content_witness :
    (api_annotations (api_annotations ⟨[], []⟩ none [eIdem] 0).fst none [eIdem] 1).snd = 1 ∧
    countKey (api_annotations (api_annotations ⟨[], []⟩ none [eIdem] 0).fst none
        [eIdem] 1).fst.output
      (resolveOid eIdem) (resolveUser eIdem (pyStrip (pyOr none ""))) = 1 ∧
    eraseTs (api_annotations (api_annotations ⟨[], []⟩ none [eIdem] 0).fst none
        [eIdem] 1).fst.output
      = eraseTs (api_annotations ⟨[], []⟩ none [eIdem] 0).fst.output :=
  save_idempotent_content ⟨[], []⟩ none eIdem 0 1 (by decide) (by decide)

lemma processBatch_count_filter (top : String) (t : Nat) :
    ∀ (es : List AnnEntry) (out : List OutputRow),
      (processBatch top t es out).2 = es.countP (fun e => !(resolveOid e == "")) ∧
      (processBatch top t es out).1
        = (processBatch top t (es.filter (fun e => !(resolveOid e == ""))) out).1
  | [], _ => ⟨rfl, rfl⟩
  | e :: es, out => by
    by_cases he : resolveOid e = ""
    · have ih := processBatch_count_filter top t es out
      simp [processBatch, he, List.countP_cons, List.filter_cons, ih.1, ih.2]
    · have ih := processBatch_count_filter top t es
        (upsert out (resolveOid e) (resolveUser e top) (resolveFix e)
          (resolveConfirmed e) t)
      simp [processBatch, he, List.countP_cons, List.filter_cons, ih.1, ih.2]

/-- C5.  The save operation silently skips entries whose resolved item
identifier is blank after trimming, reports the number of entries
actually written, and in the concrete partial batch of the spec (one
blank-identifier entry and two valid ones) answers 2 and commits
exactly the two valid rows. -/
theorem saved_count_skips_blank :
    (∀ (st : Store) (top : Option String) (es : List AnnEntry) (t : Nat),
      (api_annotations st top es t).snd = es.countP (fun e => !(resolveOid e == "")) ∧
      (api_annotations st top es t).fst
        = (api_annotations st top (es.filter (fun e => !(resolveOid e == ""))) t).fst) ∧
    api_annotations ⟨[], []⟩ none
      [⟨some "", some "   ", none, none, none, none⟩,
       ⟨some "42", none, some "Hello.", none, some "alice", some true⟩,
       ⟨some "43", none, some "x", none, some "bob", none⟩] 0 =
      (⟨[], [⟨"42", "alice", "Hello.", true, 0⟩, ⟨"43", "bob", "x", false, 0⟩]⟩, 2) := by
  constructor
  · intro st top es t
    have h := processBatch_count_filter (pyStrip (pyOr top "")) t es st.output
    refine ⟨h.1, ?_⟩
    simp only [api_annotations]
    rw [h.2]
  · decide

lemma processBatchFailing_take (top : String) (t : Nat) :
    ∀ (es : List AnnEntry) (k : Nat) (out : List OutputRow),
      processBatchFailing top t es k out = (processBatch top t (es.take k) out).1
  | [], 0, _ => rfl
  | _ :: _, 0, _ => rfl
  | [], _ + 1, _ => rfl
  | e :: es, k + 1, out => by
    by_cases he : resolveOid e = ""
    · simp [processBatchFailing, processBatch, he, List.take_succ_cons,
        processBatchFailing_take top t es k out]
    · simp [processBatchFailing, processBatch, he, List.take_succ_cons,
        processBatchFailing_take top t es k
          (upsert out (resolveOid e) (resolveUser e top) (resolveFix e)
            (resolveConfirmed e) t)]

/-- C8.  When the store fails while the save loop is at entry index
`k`, the entries from `k` on are never written, the caller gets an
error instead of a count, and the rows committed before the failure
(the effect of saving the batch prefix) stay committed. -/
theorem save_failure_prefix_committed (st : Store) (top : Option String)
    (es : List AnnEntry) (t k : Nat) :
    (api_annotations_failing st top es t k).fst
      = (api_annotations st top (es.take k) t).fst ∧
    (api_annotations_failing st top es t k).snd = Except.error "server error" := by
  refine ⟨?_, rfl⟩
  simp only [api_annotations_failing, api_annotations]
  rw [processBatchFailing_take]

lemma findKey_none_any {out : List OutputRow} {oid u : String}
    (h : findKey out oid u = none) : out.any (keyMatches oid u) = false := by
  unfold findKey at h
  rw [← Bool.not_eq_true]
  intro hany
  obtain ⟨r, hr, hm⟩ := List.any_eq_true.mp hany
  exact List.find?_eq_none.mp h r hr hm

lemma find_map_upd {out : List OutputRow} {oid u f : String} {c : Bool} {t : Nat}
    (hany : out.any (keyMatches oid u) = true) :
    (out.map (fun r => if keyMatches oid u r then
        { r with fix_text := f, confirmed := c, timestamp := t } else r)).find?
      (keyMatches oid u) = some ⟨oid, u, f, c, t⟩ := by
  induction out with
  | nil => cases hany
  | cons r rs ih =>
    by_cases hm : keyMatches oid u r = true
    · obtain ⟨h1, h2⟩ := keyMatches_iff.mp hm
      have hmu : keyMatches oid u
          ({ r with fix_text := f, confirmed := c, timestamp := t } : OutputRow) = true := hm
      rw [List.map_cons, if_pos hm, List.find?_cons_of_pos _ hmu, h1, h2]
    · have hany' : rs.any (keyMatches oid u) = true := by
        rw [List.any_cons] at hany
        rcases Bool.or_eq_true_iff.mp hany with hk | hk
        · exact absurd hk hm
        · exact hk
      rw [List.map_cons, if_neg hm, List.find?_cons_of_neg _ hm]
      exact ih hany'

lemma find_append_single {out : List OutputRow} {oid u : String} {row : OutputRow}
    (hout : out.any (keyMatches oid u) = false) (hrow : keyMatches oid u row = true) :
    (out ++ [row]).find? (keyMatches oid u) = some row := by
  induction out with
  | nil =>
    rw [List.nil_append]
    exact List.find?_cons_of_pos _ hrow
  | cons r rs ih =>
    rw [List.any_cons, Bool.or_eq_false_iff] at hout
    rw [List.cons_append, List.find?_cons_of_neg _ (by simp [hout.1])]
    exact ih hout.2

lemma findKey_upsert (out : List OutputRow) (oid u f : String) (c : Bool) (t : Nat) :
    findKey (upsert out oid u f c t) oid u = some ⟨oid, u, f, c, t⟩ := by
  unfold upsert findKey
  by_cases hany : out.any (keyMatches oid u) = true
  · rw [if_pos hany]
    exact find_map_upd hany
  · rw [if_neg hany]
    exact find_append_single (Bool.eq_false_iff.mpr hany) (by simp [keyMatches])

/-- C10.  A batch entry with a valid item identifier but a blank (or
absent) per-entry and envelope user is not skipped: it upserts a row
under the empty username, and that row adds one to the item's
cross-user count used by the listing's quota filter. -/
theorem blank_user_entry_saved (st : Store) (top : Option String) (e : AnnEntry)
    (t : Nat) (hoid : resolveOid e ≠ "")
    (hu : resolveUser e (pyStrip (pyOr top "")) = "")
    (hnew : findKey st.output (resolveOid e) "" = none) :
    (api_annotations st top [e] t).snd = 1 ∧
    findKey (api_annotations st top [e] t).fst.output (resolveOid e) ""
      = some ⟨resolveOid e, "", resolveFix e, resolveConfirmed e, t⟩ ∧
    outCount (api_annotations st top [e] t).fst.output (resolveOid e)
      = outCount st.output (resolveOid e) + 1 := by
  have hA := api_annotations_single st top e t hoid
  rw [hA, hu]
  refine ⟨rfl, findKey_upsert _ _ _ _ _ _, ?_⟩
  have hany := findKey_none_any hnew
  unfold upsert
  rw [if_neg (by simp [hany])]
  unfold outCount
  rw [List.filter_append]
  simp

def eW10 : AnnEntry := ⟨some "42", none, some "fix", none, none, some true⟩

theorem blank_user_entry_saved_witness :
    (api_annotations ⟨[], []⟩ none [eW10] 7).snd = 1 ∧
    findKey (api_annotations ⟨[], []⟩ none [eW10] 7).fst.output (resolveOid eW10) ""
      = some ⟨resolveOid eW10, "", resolveFix eW10, resolveConfirmed eW10, 7⟩ ∧
    outCount (api_annotations ⟨[], []⟩ none [eW10] 7).fst.output (resolveOid eW10)
      = outCount (⟨[], []⟩ : Store).output (resolveOid eW10) + 1 :=
  blank_user_entry_saved ⟨[], []⟩ none eW10 7 (by decide) (by decide) (by decide)

end AnnTool
